import Mathlib

/-!
# Mono-inertial synchronisation front end

A shallow embedding of `Examples/ROS/ORB_SLAM3/src/mono_inertial.cpp`:
the two producer callbacks `ImageGrabber::GrabImage` and `ImuGrabber::GrabImu`
and the body of the polling loop of `ImageGrabber::SyncWithImu`.

* A `std::queue` is a `List`: `front` is the head, `back` the last element,
  `push` appends at the end, `pop` drops the head.
* `header.stamp` is a ROS 2 `builtin_interfaces/Time`, a pair of integers
  `sec` / `nanosec`.  The source reads only `header.stamp.sec`; the `double`
  variables `tIm` and `t` therefore always hold an integer value, and every
  comparison of the source is a comparison of integers.  They are `Int` here.
* The `float64` scalars of the messages, the `float` scalars of `cv::Point3f`,
  the image payload and `cv::Mat` are type parameters `R`, `F`, `D`, `M`;
  the library routines (`cv_bridge::toCvShare`, `cv::CLAHE::apply`, the
  narrowing conversion of `double` to `float`) are fields of `Env`.
* `cv_bridge::toCvShare` may throw.  `GetImage` catches the exception, logs it and
  then dereferences the null `cv_ptr` (line 143); that has no defined result and
  is `none` here, and it ends the pass and the run: `SyncWithImu`, `step` and
  `run` return an `Option`.
* The observable effects of the loop are logged in the state:
  `calls` lists the `TrackMonocular` invocations, `sleeps` the
  `sleep_for` durations in milliseconds, both oldest first.
-/

namespace MonoInertial

/-- Stamp of a message header (`builtin_interfaces/Time`). -/
structure Time where
  sec : Int
  nanosec : Nat
deriving DecidableEq, Repr

/-- Header of a message (`std_msgs/Header`), reduced to its stamp. -/
structure Header where
  stamp : Time
deriving DecidableEq, Repr

/-- Three scalars (`geometry_msgs/Vector3`). -/
structure Vector3 (R : Type) where
  x : R
  y : R
  z : R
deriving DecidableEq, Repr

/-- Inertial message (`sensor_msgs::msg::Imu`). -/
structure Imu (R : Type) where
  header : Header
  angular_velocity : Vector3 R
  linear_acceleration : Vector3 R
deriving DecidableEq, Repr

/-- Camera message (`sensor_msgs::msg::Image`); `data` stands for the encoded picture. -/
structure Image (D : Type) where
  header : Header
  data : D
deriving DecidableEq, Repr

/-- Three single-precision scalars (`cv::Point3f`). -/
structure Point3f (F : Type) where
  x : F
  y : F
  z : F
deriving DecidableEq, Repr

/-- Inertial measurement handed to the tracker (`ORB_SLAM3::IMU::Point(acc, gyr, t)`). -/
structure Point (F : Type) where
  acc : Point3f F
  gyr : Point3f F
  t : Int
deriving DecidableEq, Repr

/-- One invocation `mpSLAM->TrackMonocular(im, tIm, vImuMeas)`. -/
structure TrackCall (F M : Type) where
  im : M
  tIm : Int
  vImuMeas : List (Point F)
deriving DecidableEq, Repr

/-- Library routines and configuration used by `ImageGrabber`. -/
structure Env (R F D M : Type) where
  /-- narrowing conversion `double` to `float` done by the `cv::Point3f` constructor -/
  toFloat : R → F
  /-- the picture of `cv_bridge::toCvShare(img_msg, MONO8)`, or `none` when the call
  throws `cv_bridge::Exception` -/
  toCvShare : Image D → Option M
  /-- the result of `mClahe->apply(im, im)` -/
  claheApply : M → M
  /-- the member `mbClahe` -/
  mbClahe : Bool

/-- The two buffers (`img0Buf`, `mpImuGb->imuBuf`) and the logs of observable effects. -/
structure State (R F D M : Type) where
  img0Buf : List (Image D)
  imuBuf : List (Imu R)
  calls : List (TrackCall F M)
  sleeps : List Nat
deriving DecidableEq, Repr

variable {R F D M : Type}

/-- The instant a stamp denotes, in nanoseconds.  The source never forms it: it reads `sec` only. -/
def Time.nanoseconds (t : Time) : Int :=
  t.sec * 1000000000 + (t.nanosec : Int)

/-- State at start-up: both queues empty, nothing logged. -/
def State.init : State R F D M :=
  { img0Buf := [], imuBuf := [], calls := [], sleeps := [] }

/-- The callback `ImageGrabber::GrabImage` (lines 120-127): pop if non-empty, then push. -/
def GrabImage (img_msg : Image D) (s : State R F D M) : State R F D M :=
  { s with img0Buf := (if !s.img0Buf.isEmpty then s.img0Buf.tail else s.img0Buf) ++ [img_msg] }

/-- The callback `ImuGrabber::GrabImu` (lines 203-209): push. -/
def GrabImu (imu_msg : Imu R) (s : State R F D M) : State R F D M :=
  { s with imuBuf := s.imuBuf ++ [imu_msg] }

/-- The function `ImageGrabber::GetImage` (lines 129-152).  When `toCvShare` succeeds both
branches of line 143 return the cloned picture.  When it throws, the `catch` of lines 137-141
only logs, `cv_ptr` is still null and line 143 dereferences it: no result. -/
def GetImage (e : Env R F D M) (img_msg : Image D) : Option M :=
  match e.toCvShare img_msg with
  | some image => some image
  | none => none

/-- Lines 180-183: the measurement built from the front message. -/
def toPoint (cast : R → F) (m : Imu R) : Point F :=
  { acc := ⟨cast m.linear_acceleration.x, cast m.linear_acceleration.y, cast m.linear_acceleration.z⟩
    gyr := ⟨cast m.angular_velocity.x, cast m.angular_velocity.y, cast m.angular_velocity.z⟩
    t := m.header.stamp.sec }

/-- The inner `while` of lines 178-185, from a queue and the measurements collected so far;
returns the measurements and the queue that is left. -/
def drainLoop (cast : R → F) (tIm : Int) : List (Imu R) → List (Point F) → List (Point F) × List (Imu R)
  | [], vImuMeas => (vImuMeas, [])
  | m :: rest, vImuMeas =>
    if m.header.stamp.sec ≤ tIm then
      drainLoop cast tIm rest (vImuMeas ++ [toPoint cast m])
    else
      (vImuMeas, m :: rest)

/-- Lines 172-187: a fresh `vImuMeas`, the emptiness guard, `clear`, and the loop. -/
def drainImu (cast : R → F) (tIm : Int) (imuBuf : List (Imu R)) : List (Point F) × List (Imu R) :=
  if !imuBuf.isEmpty then drainLoop cast tIm imuBuf [] else ([], imuBuf)

/-- Lines 165-199, entered with the value of `tIm` read at line 162: the take under
`mBufMutex`, the drain, the tracker call and the sleep.
`none` when `img0Buf` is empty, where `front()` has no defined result, and when
`GetImage` has none; in the latter case the pass stops at line 167, before `pop`,
the drain and `TrackMonocular`. -/
def syncTake (e : Env R F D M) (tIm : Int) (s : State R F D M) : Option (State R F D M) :=
  match s.img0Buf with
  | [] => none
  | f :: rest =>
    match GetImage e f with
    | none => none
    | some im =>
      let d := drainImu e.toFloat tIm s.imuBuf
      let im2 := if e.mbClahe then e.claheApply im else im
      some { img0Buf := rest
             imuBuf := d.2
             calls := s.calls ++ [{ im := im2, tIm := tIm, vImuMeas := d.1 }]
             sleeps := s.sleeps ++ [1] }

/-- One pass through the body of `while(1)` in `ImageGrabber::SyncWithImu`
(lines 158-199), run without interference from the callbacks.
The `continue` of line 164 leaves the body before the `sleep_for` of line 199.
`none` when `GetImage` has no result. -/
def SyncWithImu (e : Env R F D M) (s : State R F D M) : Option (State R F D M) :=
  match s.img0Buf, s.imuBuf.getLast? with
  | f :: rest, some b =>
    let tIm := f.header.stamp.sec
    if tIm > b.header.stamp.sec then
      some s
    else
      match GetImage e f with
      | none => none
      | some im =>
        let d := drainImu e.toFloat tIm s.imuBuf
        let im2 := if e.mbClahe then e.claheApply im else im
        some { img0Buf := rest
               imuBuf := d.2
               calls := s.calls ++ [{ im := im2, tIm := tIm, vImuMeas := d.1 }]
               sleeps := s.sleeps ++ [1] }
  | _, _ => some { s with sleeps := s.sleeps ++ [1] }

/-- What can happen next: a callback fires or the polling loop makes one pass. -/
inductive Event (R D : Type) where
  | grabImu (imu_msg : Imu R)
  | grabImage (img_msg : Image D)
  | sync
deriving DecidableEq, Repr

/-- Effect of one event; `none` when the pass has no defined result. -/
def step (e : Env R F D M) (s : State R F D M) : Event R D → Option (State R F D M)
  | .grabImu m => some (GrabImu m s)
  | .grabImage f => some (GrabImage f s)
  | .sync => SyncWithImu e s

/-- Effect of a sequence of events, oldest first; it ends with the first step that has no result. -/
def run (e : Env R F D M) (s : State R F D M) : List (Event R D) → Option (State R F D M)
  | [] => some s
  | ev :: evs =>
    match step e s ev with
    | none => none
    | some s1 => run e s1 evs

/-- The inertial messages pushed by a sequence of events, in push order. -/
def pushed : List (Event R D) → List (Imu R)
  | [] => []
  | .grabImu m :: evs => m :: pushed evs
  | _ :: evs => pushed evs

/-- First half of a pass (lines 158-164), all of it outside any lock: the emptiness test,
the read of the front stamp and the comparison with the back stamp.
`some tIm` means that the pass goes on to line 166 with that value. -/
def syncRead (s : State R F D M) : State R F D M × Option Int :=
  match s.img0Buf, s.imuBuf.getLast? with
  | f :: _, some b =>
    let tIm := f.header.stamp.sec
    if tIm > b.header.stamp.sec then (s, none) else (s, some tIm)
  | _, _ => ({ s with sleeps := s.sleeps ++ [1] }, none)

/-- A pass of the loop during which the frame callback fires for each message of `arrivals`
between the unlocked read of the stamp and the locked take. -/
def syncInterleaved (e : Env R F D M) (arrivals : List (Image D)) (s : State R F D M) :
    Option (State R F D M) :=
  match syncRead s with
  | (s1, some tIm) => syncTake e tIm (arrivals.foldl (fun st f => GrabImage f st) s1)
  | (s1, none) => some s1

/-! ## Concrete data used in the examples -/

/-- Environment of the examples: scalars are integers, a picture is its payload, the
payload 0 cannot be converted, equalisation adds 1000, and equalisation is switched off. -/
def env0 : Env Int Int Nat Nat :=
  { toFloat := id
    toCvShare := fun f => if f.data = 0 then none else some f.data
    claheApply := fun im => im + 1000
    mbClahe := false }

/-- Inertial message with the given stamp; the payload `k` tells messages apart. -/
def imuAt (sec : Int) (nanosec : Nat) (k : Int) : Imu Int :=
  { header := ⟨⟨sec, nanosec⟩⟩, angular_velocity := ⟨k, 0, 0⟩, linear_acceleration := ⟨0, k, 0⟩ }

/-- Camera message with the given stamp and payload. -/
def imageAt (sec : Int) (nanosec : Nat) (data : Nat) : Image Nat :=
  { header := ⟨⟨sec, nanosec⟩⟩, data := data }

/-- Scenario of the specification: frames stamped 1.0 and 2.0, then samples stamped
0.9, 1.0, 1.1, 1.9, 2.0, 2.1 (as `sec` / `nanosec` pairs), then one pass of the loop. -/
def scenarioEvents : List (Event Int Nat) :=
  [Event.grabImage (imageAt 1 0 10), Event.grabImage (imageAt 2 0 20),
   Event.grabImu (imuAt 0 900000000 1), Event.grabImu (imuAt 1 0 2),
   Event.grabImu (imuAt 1 100000000 3), Event.grabImu (imuAt 1 900000000 4),
   Event.grabImu (imuAt 2 0 5), Event.grabImu (imuAt 2 100000000 6),
   Event.sync]

/-- A frame stamped 5 is held while the inertial queue reaches only stamp 4. -/
def heldState : State Int Int Nat Nat :=
  { img0Buf := [imageAt 5 0 50], imuBuf := [imuAt 3 0 1, imuAt 4 0 2], calls := [], sleeps := [] }

/-- A frame stamped 1 is held and the inertial queue has caught up with it. -/
def raceState : State Int Int Nat Nat :=
  { img0Buf := [imageAt 1 0 10], imuBuf := [imuAt 1 0 1], calls := [], sleeps := [] }

/-- A frame stamped 2.0 is held and the only queued sample is stamped 2.1. -/
def boundaryState : State Int Int Nat Nat :=
  { img0Buf := [imageAt 2 0 20], imuBuf := [imuAt 2 100000000 1], calls := [], sleeps := [] }

/-- A frame stamped 2 whose picture cannot be converted is held; samples stamped 1, 2, 3 are queued. -/
def unreadableState : State Int Int Nat Nat :=
  { img0Buf := [imageAt 2 0 0], imuBuf := [imuAt 1 0 1, imuAt 2 0 2, imuAt 3 0 3],
    calls := [], sleeps := [] }

/-- Samples stamped 1.0, 1.1, 1.5, 1.9, a frame stamped 1.2 and a pass that consumes it;
then a frame stamped 1.8, a sample stamped 2.0 and a pass that consumes the second frame. -/
def subSecondEvents : List (Event Int Nat) :=
  [Event.grabImu (imuAt 1 0 1), Event.grabImu (imuAt 1 100000000 2),
   Event.grabImu (imuAt 1 500000000 3), Event.grabImu (imuAt 1 900000000 4),
   Event.grabImage (imageAt 1 200000000 12), Event.sync,
   Event.grabImage (imageAt 1 800000000 18), Event.grabImu (imuAt 2 0 5), Event.sync]

/-- Two frames are consumed, at stamps 1 and 2; this is the run up to the second consumption. -/
def twoFrameEvents : List (Event Int Nat) :=
  [Event.grabImu (imuAt 0 0 1), Event.grabImu (imuAt 1 0 2), Event.grabImage (imageAt 1 0 10),
   Event.sync, Event.grabImu (imuAt 1 500000000 3), Event.grabImu (imuAt 2 0 4),
   Event.grabImu (imuAt 3 0 5), Event.grabImage (imageAt 2 0 20)]

/-- The state reached by `twoFrameEvents` from the initial state. -/
def twoFrameState : State Int Int Nat Nat :=
  { img0Buf := [imageAt 2 0 20]
    imuBuf := [imuAt 1 500000000 3, imuAt 2 0 4, imuAt 3 0 5]
    calls := [{ im := 10, tIm := 1, vImuMeas := [toPoint id (imuAt 0 0 1), toPoint id (imuAt 1 0 2)] }]
    sleeps := [1] }

/-! ## Auxiliary facts -/

theorem drainLoop_acc (cast : R → F) (tIm : Int) (q : List (Imu R)) (v : List (Point F)) :
    drainLoop cast tIm q v
      = (v ++ (q.takeWhile (fun m => decide (m.header.stamp.sec ≤ tIm))).map (toPoint cast),
         q.dropWhile (fun m => decide (m.header.stamp.sec ≤ tIm))) := by
  induction q generalizing v with
  | nil => simp [drainLoop]
  | cons m rest ih =>
    by_cases h : m.header.stamp.sec ≤ tIm
    · simp [drainLoop, h, ih, List.takeWhile_cons, List.dropWhile_cons]
    · simp [drainLoop, h, List.takeWhile_cons, List.dropWhile_cons]

theorem drainImu_eq (cast : R → F) (tIm : Int) (q : List (Imu R)) :
    drainImu cast tIm q
      = ((q.takeWhile (fun m => decide (m.header.stamp.sec ≤ tIm))).map (toPoint cast),
         q.dropWhile (fun m => decide (m.header.stamp.sec ≤ tIm))) := by
  cases q with
  | nil => simp [drainImu]
  | cons m rest => simp [drainImu, drainLoop_acc]

theorem GetImage_eq (e : Env R F D M) (img_msg : Image D) :
    GetImage e img_msg = e.toCvShare img_msg := by
  unfold GetImage
  cases e.toCvShare img_msg <;> rfl

theorem SyncWithImu_idle (e : Env R F D M) (s : State R F D M)
    (h : s.img0Buf = [] ∨ s.imuBuf = []) :
    SyncWithImu e s = some { s with sleeps := s.sleeps ++ [1] } := by
  rcases h with h | h
  · simp [SyncWithImu, h]
  · cases hq : s.img0Buf <;> simp [SyncWithImu, h, hq]

theorem SyncWithImu_blocked (e : Env R F D M) (s : State R F D M) (f : Image D)
    (rest : List (Image D)) (b : Imu R) (hf : s.img0Buf = f :: rest)
    (hb : s.imuBuf.getLast? = some b) (hgt : b.header.stamp.sec < f.header.stamp.sec) :
    SyncWithImu e s = some s := by
  simp [SyncWithImu, hf, hb, hgt]

theorem SyncWithImu_consume (e : Env R F D M) (s : State R F D M) (f : Image D)
    (rest : List (Image D)) (b : Imu R) (im : M) (hf : s.img0Buf = f :: rest)
    (hb : s.imuBuf.getLast? = some b) (hle : f.header.stamp.sec ≤ b.header.stamp.sec)
    (hconv : GetImage e f = some im) :
    SyncWithImu e s = some
      { img0Buf := rest
        imuBuf := (drainImu e.toFloat f.header.stamp.sec s.imuBuf).2
        calls := s.calls ++
          [{ im := if e.mbClahe then e.claheApply im else im
             tIm := f.header.stamp.sec
             vImuMeas := (drainImu e.toFloat f.header.stamp.sec s.imuBuf).1 }]
        sleeps := s.sleeps ++ [1] } := by
  have hn : ¬ b.header.stamp.sec < f.header.stamp.sec := by omega
  simp [SyncWithImu, hf, hb, hn, hconv]

theorem SyncWithImu_no_picture (e : Env R F D M) (s : State R F D M) (f : Image D)
    (rest : List (Image D)) (b : Imu R) (hf : s.img0Buf = f :: rest)
    (hb : s.imuBuf.getLast? = some b) (hle : f.header.stamp.sec ≤ b.header.stamp.sec)
    (hconv : GetImage e f = none) :
    SyncWithImu e s = none := by
  have hn : ¬ b.header.stamp.sec < f.header.stamp.sec := by omega
  simp [SyncWithImu, hf, hb, hn, hconv]

/-- The four ways a pass can go: idle, held back by the comparison of line 163, stopped in
`GetImage`, or consuming. -/
theorem SyncWithImu_cases (e : Env R F D M) (s : State R F D M) :
    ((s.img0Buf = [] ∨ s.imuBuf = []) ∧
        SyncWithImu e s = some { s with sleeps := s.sleeps ++ [1] }) ∨
    (∃ f rest b, s.img0Buf = f :: rest ∧ s.imuBuf.getLast? = some b ∧
        b.header.stamp.sec < f.header.stamp.sec ∧ SyncWithImu e s = some s) ∨
    (∃ f rest b, s.img0Buf = f :: rest ∧ s.imuBuf.getLast? = some b ∧
        f.header.stamp.sec ≤ b.header.stamp.sec ∧ GetImage e f = none ∧
        SyncWithImu e s = none) ∨
    (∃ f rest b im, s.img0Buf = f :: rest ∧ s.imuBuf.getLast? = some b ∧
        f.header.stamp.sec ≤ b.header.stamp.sec ∧ GetImage e f = some im ∧
        SyncWithImu e s = some
          { img0Buf := rest
            imuBuf := (drainImu e.toFloat f.header.stamp.sec s.imuBuf).2
            calls := s.calls ++
              [{ im := if e.mbClahe then e.claheApply im else im
                 tIm := f.header.stamp.sec
                 vImuMeas := (drainImu e.toFloat f.header.stamp.sec s.imuBuf).1 }]
            sleeps := s.sleeps ++ [1] }) := by
  have hq : s.img0Buf = [] ∨ ∃ f rest, s.img0Buf = f :: rest := by
    cases s.img0Buf <;> simp
  have hl : s.imuBuf = [] ∨ ∃ b, s.imuBuf.getLast? = some b := by
    cases hx : s.imuBuf.getLast? with
    | none => exact Or.inl (by simpa using hx)
    | some b => exact Or.inr ⟨b, rfl⟩
  rcases hq with hq | ⟨f, rest, hq⟩
  · exact Or.inl ⟨Or.inl hq, SyncWithImu_idle e s (Or.inl hq)⟩
  rcases hl with hl | ⟨b, hl⟩
  · exact Or.inl ⟨Or.inr hl, SyncWithImu_idle e s (Or.inr hl)⟩
  by_cases hgt : b.header.stamp.sec < f.header.stamp.sec
  · exact Or.inr (Or.inl ⟨f, rest, b, hq, hl, hgt, SyncWithImu_blocked e s f rest b hq hl hgt⟩)
  have hle : f.header.stamp.sec ≤ b.header.stamp.sec := by omega
  have hc : GetImage e f = none ∨ ∃ im, GetImage e f = some im := by
    cases GetImage e f <;> simp
  rcases hc with hc | ⟨im, hc⟩
  · exact Or.inr (Or.inr (Or.inl ⟨f, rest, b, hq, hl, hle, hc,
      SyncWithImu_no_picture e s f rest b hq hl hle hc⟩))
  · exact Or.inr (Or.inr (Or.inr ⟨f, rest, b, im, hq, hl, hle, hc,
      SyncWithImu_consume e s f rest b im hq hl hle hc⟩))

theorem run_cons_some (e : Env R F D M) (s s1 : State R F D M) (ev : Event R D)
    (evs : List (Event R D)) (h : step e s ev = some s1) :
    run e s (ev :: evs) = run e s1 evs := by
  simp [run, h]

theorem run_cons_eq_some (e : Env R F D M) (s s2 : State R F D M) (ev : Event R D)
    (evs : List (Event R D)) (h : run e s (ev :: evs) = some s2) :
    ∃ s1, step e s ev = some s1 ∧ run e s1 evs = some s2 := by
  cases hs : step e s ev with
  | none => simp [run, hs] at h
  | some s1 => exact ⟨s1, rfl, by simpa [run, hs] using h⟩

theorem run_append (e : Env R F D M) (s : State R F D M) (xs ys : List (Event R D)) :
    run e s (xs ++ ys) = (run e s xs).bind (fun s1 => run e s1 ys) := by
  induction xs generalizing s with
  | nil => simp [run]
  | cons ev xs ih =>
    cases hs : step e s ev with
    | none => simp [run, hs]
    | some s1 => simp [run, hs, ih]

theorem pushed_append (xs ys : List (Event R D)) :
    pushed (xs ++ ys) = pushed xs ++ pushed ys := by
  induction xs with
  | nil => rfl
  | cons ev xs ih => cases ev <;> simp [pushed, ih]

/-- A pass leaves the frame queue no longer than it was. -/
theorem SyncWithImu_img0Buf_length (e : Env R F D M) (s s2 : State R F D M)
    (h2 : SyncWithImu e s = some s2) : s2.img0Buf.length ≤ s.img0Buf.length := by
  rcases SyncWithImu_cases e s with ⟨_, h⟩ | ⟨_, _, _, _, _, _, h⟩ | ⟨_, _, _, _, _, _, _, h⟩ |
    ⟨f, rest, b, im, hf, _, _, _, h⟩
  · rw [h] at h2
    simp only [Option.some.injEq] at h2
    rw [← h2]
  · rw [h] at h2
    simp only [Option.some.injEq] at h2
    rw [← h2]
  · rw [h] at h2
    simp at h2
  · rw [h] at h2
    simp only [Option.some.injEq] at h2
    rw [← h2, hf]
    simp

theorem GrabImage_img0Buf (f : Image D) (s : State R F D M) (h : s.img0Buf.length ≤ 1) :
    (GrabImage f s).img0Buf = [f] := by
  cases hq : s.img0Buf with
  | nil => simp [GrabImage, hq]
  | cons g rest =>
    have hr : rest = [] := by
      rw [hq] at h
      simpa using h
    simp [GrabImage, hq, hr]

theorem step_img0Buf_length (e : Env R F D M) (s s1 : State R F D M) (ev : Event R D)
    (h : s.img0Buf.length ≤ 1) (hs : step e s ev = some s1) : s1.img0Buf.length ≤ 1 := by
  cases ev with
  | grabImu m =>
    simp only [step, Option.some.injEq] at hs
    rw [← hs]
    simpa [GrabImu] using h
  | grabImage f =>
    simp only [step, Option.some.injEq] at hs
    rw [← hs]
    simp [GrabImage_img0Buf f s h]
  | sync => exact le_trans (SyncWithImu_img0Buf_length e s s1 hs) h

theorem run_img0Buf_length (e : Env R F D M) (evs : List (Event R D)) (s s2 : State R F D M)
    (h : s.img0Buf.length ≤ 1) (hr : run e s evs = some s2) : s2.img0Buf.length ≤ 1 := by
  induction evs generalizing s with
  | nil =>
    simp only [run, Option.some.injEq] at hr
    rw [← hr]
    exact h
  | cons ev evs ih =>
    obtain ⟨s1, hs, hr1⟩ := run_cons_eq_some e s s2 ev evs hr
    exact ih s1 (step_img0Buf_length e s s1 ev h hs) hr1

/-- While every buffered and every arriving sample is older than the held frame,
no pass consumes the frame or calls the tracker, and the run goes on. -/
theorem run_held_back (e : Env R F D M) (f : Image D) (evs : List (Event R D))
    (s : State R F D M) (hf : s.img0Buf = [f])
    (hq : ∀ m ∈ s.imuBuf, m.header.stamp.sec < f.header.stamp.sec)
    (hev : ∀ ev ∈ evs, ev = Event.sync ∨
      ∃ m, ev = Event.grabImu m ∧ m.header.stamp.sec < f.header.stamp.sec) :
    ∃ s2, run e s evs = some s2 ∧ s2.calls = s.calls ∧ s2.img0Buf = [f] ∧
      s2.imuBuf = s.imuBuf ++ pushed evs := by
  induction evs generalizing s with
  | nil => exact ⟨s, rfl, rfl, hf, by simp [pushed]⟩
  | cons ev evs ih =>
    have htl : ∀ x ∈ evs, x = Event.sync ∨
        ∃ m, x = Event.grabImu m ∧ m.header.stamp.sec < f.header.stamp.sec :=
      fun x hx => hev x (List.mem_cons_of_mem _ hx)
    rcases hev ev (List.mem_cons_self _ _) with rfl | ⟨m, rfl, hm⟩
    · have hs : ∃ s1, step e s Event.sync = some s1 ∧ s1.calls = s.calls ∧ s1.img0Buf = [f] ∧
          s1.imuBuf = s.imuBuf := by
        have hnot : ∀ g rest b, s.img0Buf = g :: rest → s.imuBuf.getLast? = some b →
            g.header.stamp.sec ≤ b.header.stamp.sec → False := by
          intro g rest b hg hb hle
          have hgf : g = f := by
            rw [hf] at hg
            simp only [List.cons.injEq] at hg
            exact hg.1.symm
          have := hq b (List.mem_of_getLast?_eq_some hb)
          rw [hgf] at hle
          omega
        rcases SyncWithImu_cases e s with ⟨_, h⟩ | ⟨_, _, _, _, _, _, h⟩ |
          ⟨g, rest, b, hg, hb, hle, _, _⟩ | ⟨g, rest, b, _, hg, hb, hle, _, _⟩
        · exact ⟨_, h, rfl, hf, rfl⟩
        · exact ⟨_, h, rfl, hf, rfl⟩
        · exact (hnot g rest b hg hb hle).elim
        · exact (hnot g rest b hg hb hle).elim
      obtain ⟨s1, hs1, hc1, hf1, hi1⟩ := hs
      obtain ⟨s2, h0, h1, h2, h3⟩ := ih s1 hf1 (by rw [hi1]; exact hq) htl
      refine ⟨s2, by rw [run_cons_some e s s1 _ evs hs1, h0], by rw [h1, hc1], h2, ?_⟩
      rw [h3, hi1]
      simp [pushed]
    · have hq2 : ∀ x ∈ (GrabImu m s).imuBuf, x.header.stamp.sec < f.header.stamp.sec := by
        intro x hx
        simp only [GrabImu, List.mem_append, List.mem_singleton] at hx
        rcases hx with hx | rfl
        · exact hq x hx
        · exact hm
      obtain ⟨s2, h0, h1, h2, h3⟩ := ih (GrabImu m s) (by simpa [GrabImu] using hf) hq2 htl
      refine ⟨s2, by rw [run_cons_some e s (GrabImu m s) (Event.grabImu m) evs rfl, h0], ?_, h2, ?_⟩
      · rw [h1]
        simp [GrabImu]
      · rw [h3]
        simp [GrabImu, pushed]

/-- In a queue with non-decreasing stamps, the samples not newer than `T` are a front segment. -/
theorem filter_eq_takeWhile_of_sorted (T : Int) (q : List (Imu R))
    (h : q.Pairwise (fun a b => a.header.stamp.sec ≤ b.header.stamp.sec)) :
    q.filter (fun m => decide (m.header.stamp.sec ≤ T))
      = q.takeWhile (fun m => decide (m.header.stamp.sec ≤ T)) := by
  induction q with
  | nil => rfl
  | cons m rest ih =>
    rw [List.pairwise_cons] at h
    by_cases hm : m.header.stamp.sec ≤ T
    · simp [List.filter_cons, List.takeWhile_cons, hm, ih h.2]
    · have hrest : rest.filter (fun m => decide (m.header.stamp.sec ≤ T)) = [] := by
        rw [List.filter_eq_nil_iff]
        intro x hx
        have := h.1 x hx
        simp only [decide_eq_true_eq]
        omega
      simp [List.filter_cons, List.takeWhile_cons, hm, hrest]

/-- Every step keeps the log of batches a partition of a front segment of the pushed
sequence, the inertial queue being the rest. -/
theorem step_partition (e : Env R F D M) (s s1 : State R F D M) (ev : Event R D)
    (hist : List (Imu R)) (bs : List (List (Imu R)))
    (h1 : s.calls.map (fun c => c.vImuMeas) = bs.map (List.map (toPoint e.toFloat)))
    (h2 : bs.flatten ++ s.imuBuf = hist) (hs : step e s ev = some s1) :
    ∃ bs2 : List (List (Imu R)),
      s1.calls.map (fun c => c.vImuMeas) = bs2.map (List.map (toPoint e.toFloat)) ∧
      bs2.flatten ++ s1.imuBuf = hist ++ pushed [ev] := by
  cases ev with
  | grabImu m =>
    simp only [step, Option.some.injEq] at hs
    subst hs
    refine ⟨bs, by simpa [GrabImu] using h1, ?_⟩
    simp [GrabImu, pushed, ← h2]
  | grabImage f =>
    simp only [step, Option.some.injEq] at hs
    subst hs
    refine ⟨bs, by simpa [GrabImage] using h1, ?_⟩
    simp [GrabImage, pushed, h2]
  | sync =>
    simp only [step] at hs
    rcases SyncWithImu_cases e s with ⟨_, h⟩ | ⟨_, _, _, _, _, _, h⟩ | ⟨_, _, _, _, _, _, _, h⟩ |
      ⟨f, rest, b, im, hf, hb, hle, _, h⟩
    · rw [h] at hs
      simp only [Option.some.injEq] at hs
      subst hs
      exact ⟨bs, h1, by simp [pushed, h2]⟩
    · rw [h] at hs
      simp only [Option.some.injEq] at hs
      subst hs
      exact ⟨bs, h1, by simp [pushed, h2]⟩
    · rw [h] at hs
      simp at hs
    · rw [h] at hs
      simp only [Option.some.injEq] at hs
      subst hs
      refine ⟨bs ++ [s.imuBuf.takeWhile
          (fun m => decide (m.header.stamp.sec ≤ f.header.stamp.sec))], ?_, ?_⟩
      · simp [h1, drainImu_eq]
      · simp [drainImu_eq, pushed, ← h2]

theorem run_partition_from (e : Env R F D M) (evs : List (Event R D)) (s s2 : State R F D M)
    (hist : List (Imu R)) (bs : List (List (Imu R)))
    (h1 : s.calls.map (fun c => c.vImuMeas) = bs.map (List.map (toPoint e.toFloat)))
    (h2 : bs.flatten ++ s.imuBuf = hist) (hr : run e s evs = some s2) :
    ∃ bs2 : List (List (Imu R)),
      s2.calls.map (fun c => c.vImuMeas) = bs2.map (List.map (toPoint e.toFloat)) ∧
      bs2.flatten ++ s2.imuBuf = hist ++ pushed evs := by
  induction evs generalizing s hist bs with
  | nil =>
    simp only [run, Option.some.injEq] at hr
    subst hr
    exact ⟨bs, h1, by simpa [pushed] using h2⟩
  | cons ev evs ih =>
    obtain ⟨s1, hs, hr1⟩ := run_cons_eq_some e s s2 ev evs hr
    obtain ⟨bs1, g1, g2⟩ := step_partition e s s1 ev hist bs h1 h2 hs
    obtain ⟨bs2, k1, k2⟩ := ih s1 (hist ++ pushed [ev]) bs1 g1 g2 hr1
    refine ⟨bs2, k1, ?_⟩
    rw [k2, List.append_assoc, ← pushed_append]
    rfl

theorem run_partition (e : Env R F D M) (evs : List (Event R D)) (s : State R F D M)
    (hr : run e (State.init : State R F D M) evs = some s) :
    ∃ bs : List (List (Imu R)),
      s.calls.map (fun c => c.vImuMeas) = bs.map (List.map (toPoint e.toFloat)) ∧
      bs.flatten ++ s.imuBuf = pushed evs := by
  have := run_partition_from e evs (State.init : State R F D M) s [] [] (by simp [State.init])
    (by simp [State.init]) hr
  simpa using this

/-- Every measurement of a logged batch carries a stamp not above the timestamp of its call. -/
theorem run_calls_bounded (e : Env R F D M) (evs : List (Event R D)) (s s2 : State R F D M)
    (h : ∀ c ∈ s.calls, ∀ p ∈ c.vImuMeas, p.t ≤ c.tIm) (hr : run e s evs = some s2) :
    ∀ c ∈ s2.calls, ∀ p ∈ c.vImuMeas, p.t ≤ c.tIm := by
  induction evs generalizing s with
  | nil =>
    simp only [run, Option.some.injEq] at hr
    subst hr
    exact h
  | cons ev evs ih =>
    obtain ⟨s1, hs, hr1⟩ := run_cons_eq_some e s s2 ev evs hr
    refine ih s1 ?_ hr1
    cases ev with
    | grabImu m =>
      simp only [step, Option.some.injEq] at hs
      subst hs
      simpa [GrabImu] using h
    | grabImage f =>
      simp only [step, Option.some.injEq] at hs
      subst hs
      simpa [GrabImage] using h
    | sync =>
      simp only [step] at hs
      rcases SyncWithImu_cases e s with ⟨_, hc⟩ | ⟨_, _, _, _, _, _, hc⟩ |
        ⟨_, _, _, _, _, _, _, hc⟩ | ⟨f, rest, b, im, hf, hb, hle, _, hc⟩
      · rw [hc] at hs
        simp only [Option.some.injEq] at hs
        subst hs
        exact h
      · rw [hc] at hs
        simp only [Option.some.injEq] at hs
        subst hs
        exact h
      · rw [hc] at hs
        simp at hs
      · rw [hc] at hs
        simp only [Option.some.injEq] at hs
        subst hs
        intro c hcm p hp
        simp only [List.mem_append, List.mem_singleton] at hcm
        rcases hcm with hcm | rfl
        · exact h c hcm p hp
        · simp only [drainImu_eq, List.mem_map] at hp
          obtain ⟨m, hm, rfl⟩ := hp
          simpa [toPoint] using List.mem_takeWhile_imp hm

/-- Without interference the two halves of a pass make up `SyncWithImu`. -/
theorem syncInterleaved_nil (e : Env R F D M) (s : State R F D M) :
    syncInterleaved e [] s = SyncWithImu e s := by
  rcases SyncWithImu_cases e s with ⟨hi, h⟩ | ⟨f, rest, b, hf, hb, hgt, h⟩ |
    ⟨f, rest, b, hf, hb, hle, hc, h⟩ | ⟨f, rest, b, im, hf, hb, hle, hc, h⟩
  · rw [h]
    rcases hi with hi | hi
    · simp [syncInterleaved, syncRead, hi]
    · cases hq : s.img0Buf <;> simp [syncInterleaved, syncRead, hi, hq]
  · rw [h]
    simp [syncInterleaved, syncRead, hf, hb, hgt]
  · rw [h]
    have hn : ¬ b.header.stamp.sec < f.header.stamp.sec := by omega
    simp [syncInterleaved, syncRead, syncTake, hf, hb, hn, hc]
  · rw [h]
    have hn : ¬ b.header.stamp.sec < f.header.stamp.sec := by omega
    simp [syncInterleaved, syncRead, syncTake, hf, hb, hn, hc]

/-- When `toCvShare` never throws, every pass has a result. -/
theorem SyncWithImu_isSome (e : Env R F D M) (hconv : ∀ f, (e.toCvShare f).isSome)
    (s : State R F D M) : (SyncWithImu e s).isSome := by
  rcases SyncWithImu_cases e s with ⟨_, h⟩ | ⟨_, _, _, _, _, _, h⟩ |
    ⟨f, _, _, _, _, _, hc, _⟩ | ⟨_, _, _, _, _, _, _, _, h⟩
  · simp [h]
  · simp [h]
  · have := hconv f
    rw [GetImage_eq] at hc
    simp [hc] at this
  · simp [h]

/-- When `toCvShare` never throws, every run has a result. -/
theorem run_isSome (e : Env R F D M) (hconv : ∀ f, (e.toCvShare f).isSome)
    (evs : List (Event R D)) (s : State R F D M) : (run e s evs).isSome := by
  induction evs generalizing s with
  | nil => simp [run]
  | cons ev evs ih =>
    cases ev with
    | grabImu m => simpa [run, step] using ih (GrabImu m s)
    | grabImage f => simpa [run, step] using ih (GrabImage f s)
    | sync =>
      have h := SyncWithImu_isSome e hconv s
      obtain ⟨s1, hs1⟩ := Option.isSome_iff_exists.mp h
      simpa [run, step, hs1] using ih s1

/-- At whole-second granularity the batches are a partition: if a pass after `evs` makes the
call `c`, the pushed samples have non-decreasing `sec` and the logged values of `tIm` are
strictly increasing, then the batches are consecutive segments whose concatenation is the
sequence of pushed samples with `sec ≤ c.tIm`. -/
theorem batches_are_samples_up_to_last_sec (e : Env R F D M) (evs : List (Event R D))
    (s s2 : State R F D M) (c : TrackCall F M)
    (hrun : run e (State.init : State R F D M) evs = some s)
    (hpass : SyncWithImu e s = some s2)
    (hlast : s2.calls = s.calls ++ [c])
    (hsorted : (pushed evs).Pairwise (fun a b => a.header.stamp.sec ≤ b.header.stamp.sec))
    (hT : (s2.calls.map (fun c => c.tIm)).Pairwise (fun a b => a < b)) :
    ∃ batches : List (List (Imu R)),
      s2.calls.map (fun c => c.vImuMeas) = batches.map (List.map (toPoint e.toFloat)) ∧
      batches.flatten = (pushed evs).filter (fun m => decide (m.header.stamp.sec ≤ c.tIm)) ∧
      batches.flatten.Pairwise (fun a b => a.header.stamp.sec ≤ b.header.stamp.sec) := by
  obtain ⟨bs, h1, h2⟩ := run_partition e evs s hrun
  have hbound := run_calls_bounded e evs (State.init : State R F D M) s
    (by simp [State.init]) hrun
  rw [hlast] at hT
  rcases SyncWithImu_cases e s with ⟨_, h⟩ | ⟨_, _, _, _, _, _, h⟩ | ⟨_, _, _, _, _, _, _, h⟩ |
    ⟨f, rest, b, im, hf, hb, hle, _, h⟩
  · rw [h] at hpass
    simp only [Option.some.injEq] at hpass
    subst hpass
    simp at hlast
  · rw [h] at hpass
    simp only [Option.some.injEq] at hpass
    subst hpass
    simp at hlast
  · rw [h] at hpass
    simp at hpass
  · rw [h] at hpass
    simp only [Option.some.injEq] at hpass
    subst hpass
    simp only [List.append_cancel_left_eq, List.cons.injEq, and_true] at hlast
    have hct : c.tIm = f.header.stamp.sec := by rw [← hlast]
    have hcv : c.vImuMeas = (s.imuBuf.takeWhile
        (fun m => decide (m.header.stamp.sec ≤ c.tIm))).map (toPoint e.toFloat) := by
      rw [hct, ← hlast]
      simp [drainImu_eq]
    have hold : ∀ m ∈ bs.flatten, m.header.stamp.sec ≤ c.tIm := by
      intro m hm
      rw [List.mem_flatten] at hm
      obtain ⟨bt, hbt, hmb⟩ := hm
      have hin : bt.map (toPoint e.toFloat) ∈ s.calls.map (fun c => c.vImuMeas) := by
        rw [h1]
        exact List.mem_map_of_mem _ hbt
      rw [List.mem_map] at hin
      obtain ⟨c0, hc0, hc0v⟩ := hin
      have hp : (toPoint e.toFloat m).t ≤ c0.tIm :=
        hbound c0 hc0 _ (by rw [hc0v]; exact List.mem_map_of_mem _ hmb)
      rw [List.map_append, List.pairwise_append] at hT
      have hlt := hT.2.2 c0.tIm (List.mem_map_of_mem _ hc0) c.tIm (by simp)
      have : (toPoint e.toFloat m).t = m.header.stamp.sec := rfl
      omega
    have hqs : s.imuBuf.Pairwise (fun a b => a.header.stamp.sec ≤ b.header.stamp.sec) := by
      rw [← h2] at hsorted
      exact (List.pairwise_append.mp hsorted).2.1
    have hjoin : (bs ++ [s.imuBuf.takeWhile
        (fun m => decide (m.header.stamp.sec ≤ c.tIm))]).flatten
        = (pushed evs).filter (fun m => decide (m.header.stamp.sec ≤ c.tIm)) := by
      rw [← h2, List.filter_append, filter_eq_takeWhile_of_sorted c.tIm s.imuBuf hqs]
      have : bs.flatten.filter (fun m => decide (m.header.stamp.sec ≤ c.tIm)) = bs.flatten := by
        rw [List.filter_eq_self]
        intro m hm
        simpa using hold m hm
      rw [this]
      simp
    refine ⟨bs ++ [s.imuBuf.takeWhile (fun m => decide (m.header.stamp.sec ≤ c.tIm))],
      ?_, hjoin, ?_⟩
    · rw [hlast]
      simp [h1, hcv]
    · rw [hjoin]
      exact hsorted.sublist (List.filter_sublist _)

/-- C1. The drain of lines 172-187, on any queue `q` and frame stamp `T` (stamps read as
`header.stamp.sec`), yields a batch `b` and a remainder `r` such that `b` is the
measurements of a front segment `taken` of `q` with `taken ++ r = q`, every taken sample
has stamp `≤ T`, `r` is empty or starts with a sample of stamp `> T`, and `b` is empty
when `q` is empty or its head has stamp `> T`. -/
theorem C1_drain_splits_queue (cast : R → F) (T : Int) (q : List (Imu R)) :
    ∃ taken : List (Imu R),
      (drainImu cast T q).1 = taken.map (toPoint cast) ∧
      taken ++ (drainImu cast T q).2 = q ∧
      (∀ m ∈ taken, m.header.stamp.sec ≤ T) ∧
      (∀ p ∈ (drainImu cast T q).1, p.t ≤ T) ∧
      ((drainImu cast T q).2 = [] ∨
        ∃ m rest, (drainImu cast T q).2 = m :: rest ∧ T < m.header.stamp.sec) ∧
      ((q = [] ∨ ∃ m rest, q = m :: rest ∧ T < m.header.stamp.sec) →
        (drainImu cast T q).1 = [] ∧ (drainImu cast T q).2 = q) := by
  refine ⟨q.takeWhile (fun m => decide (m.header.stamp.sec ≤ T)), ?_, ?_, ?_, ?_, ?_, ?_⟩
  · simp [drainImu_eq]
  · simp [drainImu_eq]
  · intro m hm
    simpa using List.mem_takeWhile_imp hm
  · intro p hp
    simp only [drainImu_eq, List.mem_map] at hp
    obtain ⟨m, hm, rfl⟩ := hp
    simpa [toPoint] using List.mem_takeWhile_imp hm
  · simp only [drainImu_eq]
    cases hd : q.dropWhile (fun m => decide (m.header.stamp.sec ≤ T)) with
    | nil => exact Or.inl rfl
    | cons m rest =>
      refine Or.inr ⟨m, rest, rfl, ?_⟩
      have := List.head_dropWhile_not (fun m : Imu R => decide (m.header.stamp.sec ≤ T)) q
        (by simp [hd])
      have hn : ¬ m.header.stamp.sec ≤ T := by simpa [hd] using this
      omega
  · rintro (rfl | ⟨m, rest, rfl, hlt⟩)
    · simp [drainImu_eq]
    · have hn : ¬ m.header.stamp.sec ≤ T := by omega
      simp [drainImu_eq, List.takeWhile_cons, List.dropWhile_cons, hn]

/-- C2. If a pass of `SyncWithImu` invokes `TrackMonocular` with timestamp `T`, then at that pass
the frame queue had a front frame whose `sec` is `T`, the inertial queue was non-empty and `T`
does not exceed the stamp of its back sample (neither its `sec` nor, counted in nanoseconds,
its full stamp); a pass appends at most one call.  Moreover, while a frame is held and every
buffered and every newly pushed sample is older than it, every sequence of passes and inertial
pushes has a result, and it neither invokes the tracker nor removes the frame. -/
theorem C2_tracker_call_is_covered (e : Env R F D M) :
    (∀ (s s2 : State R F D M) (c : TrackCall F M), SyncWithImu e s = some s2 →
      s2.calls = s.calls ++ [c] →
      s.imuBuf ≠ [] ∧
      ∃ f b, s.img0Buf.head? = some f ∧ s.imuBuf.getLast? = some b ∧
        c.tIm = f.header.stamp.sec ∧ c.tIm ≤ b.header.stamp.sec ∧
        c.tIm * 1000000000 ≤ b.header.stamp.sec * 1000000000 + (b.header.stamp.nanosec : Int)) ∧
    (∀ s s2 : State R F D M, SyncWithImu e s = some s2 →
      s2.calls = s.calls ∨ ∃ c, s2.calls = s.calls ++ [c]) ∧
    (∀ (s : State R F D M) (f : Image D) (evs : List (Event R D)), s.img0Buf = [f] →
      (∀ m ∈ s.imuBuf, m.header.stamp.sec < f.header.stamp.sec) →
      (∀ ev ∈ evs, ev = Event.sync ∨
        ∃ m, ev = Event.grabImu m ∧ m.header.stamp.sec < f.header.stamp.sec) →
      ∃ s2, run e s evs = some s2 ∧ s2.calls = s.calls ∧ s2.img0Buf = [f]) := by
  refine ⟨?_, ?_, ?_⟩
  · intro s s2 c hp hc
    rcases SyncWithImu_cases e s with ⟨_, h⟩ | ⟨_, _, _, _, _, _, h⟩ | ⟨_, _, _, _, _, _, _, h⟩ |
      ⟨f, rest, b, im, hf, hb, hle, _, h⟩
    · rw [h] at hp
      simp only [Option.some.injEq] at hp
      subst hp
      simp at hc
    · rw [h] at hp
      simp only [Option.some.injEq] at hp
      subst hp
      simp at hc
    · rw [h] at hp
      simp at hp
    · rw [h] at hp
      simp only [Option.some.injEq] at hp
      subst hp
      simp only [List.append_cancel_left_eq, List.cons.injEq, and_true] at hc
      have ht : c.tIm = f.header.stamp.sec := by rw [← hc]
      refine ⟨?_, f, b, by simp [hf], hb, ht, by omega, ?_⟩
      · intro hemp
        simp [hemp] at hb
      · have : (0 : Int) ≤ (b.header.stamp.nanosec : Int) := Int.ofNat_nonneg _
        omega
  · intro s s2 hp
    rcases SyncWithImu_cases e s with ⟨_, h⟩ | ⟨_, _, _, _, _, _, h⟩ | ⟨_, _, _, _, _, _, _, h⟩ |
      ⟨f, rest, b, im, hf, hb, hle, _, h⟩
    · rw [h] at hp
      simp only [Option.some.injEq] at hp
      subst hp
      exact Or.inl rfl
    · rw [h] at hp
      simp only [Option.some.injEq] at hp
      subst hp
      exact Or.inl rfl
    · rw [h] at hp
      simp at hp
    · rw [h] at hp
      simp only [Option.some.injEq] at hp
      subst hp
      exact Or.inr ⟨_, rfl⟩
  · intro s f evs hf hq hev
    obtain ⟨s2, h0, h1, h2, _⟩ := run_held_back e f evs s hf hq hev
    exact ⟨s2, h0, h1, h2⟩

/-- C4. From a frame queue holding zero or one frame, any non-empty sequence of `GrabImage`
calls with nothing in between leaves exactly one frame, the last one pushed, and touches
nothing else; and in every state reached by a run from the initial state, or from any state
whose frame queue holds at most one frame, the frame queue holds at most one frame. -/
theorem C4_frame_queue_single_slot (e : Env R F D M) :
    (∀ (s : State R F D M) (fs : List (Image D)) (hne : fs ≠ []), s.img0Buf.length ≤ 1 →
      run e s (fs.map Event.grabImage) = some { s with img0Buf := [fs.getLast hne] }) ∧
    (∀ (evs : List (Event R D)) (s2 : State R F D M),
      run e (State.init : State R F D M) evs = some s2 → s2.img0Buf.length ≤ 1) ∧
    (∀ (s s2 : State R F D M) (evs : List (Event R D)), s.img0Buf.length ≤ 1 →
      run e s evs = some s2 → s2.img0Buf.length ≤ 1) := by
  refine ⟨?_, ?_, ?_⟩
  · intro s fs hne hlen
    induction fs generalizing s with
    | nil => exact absurd rfl hne
    | cons f fs ih =>
      have h1 : GrabImage f s = { s with img0Buf := [f] } := by
        have := GrabImage_img0Buf f s hlen
        simp only [GrabImage] at this ⊢
        rw [this]
      cases fs with
      | nil => simp [run, step, h1]
      | cons g gs =>
        have h2 := ih (GrabImage f s) (by simp) (by rw [h1]; simp)
        rw [List.map_cons, run_cons_some e s (GrabImage f s) (Event.grabImage f) _ rfl, h2, h1]
        simp [List.getLast_cons]
  · intro evs s2 hr
    exact run_img0Buf_length e evs State.init s2 (by simp [State.init]) hr
  · intro s s2 evs h hr
    exact run_img0Buf_length e evs s s2 h hr

/-- C5. In every state reached by a run from the initial state, whatever the order of the
stamps, the batches handed to the tracker so far are the measurements of consecutive segments
of the pushed sequence, and these segments followed by the current inertial queue are exactly
the sequence of all samples pushed so far, in push order. -/
theorem C5_batches_and_queue_are_push_history (e : Env R F D M) (evs : List (Event R D))
    (s : State R F D M) (hr : run e (State.init : State R F D M) evs = some s) :
    (∃ batches : List (List (Imu R)),
      s.calls.map (fun c => c.vImuMeas) = batches.map (List.map (toPoint e.toFloat)) ∧
      batches.flatten ++ s.imuBuf = pushed evs) ∧
    (s.calls.map (fun c => c.vImuMeas)).flatten ++ s.imuBuf.map (toPoint e.toFloat)
      = (pushed evs).map (toPoint e.toFloat) := by
  obtain ⟨bs, h1, h2⟩ := run_partition e evs s hr
  refine ⟨⟨bs, h1, h2⟩, ?_⟩
  rw [h1, ← h2, List.map_append, List.map_flatten]

/-- C9. When the frame queue is empty or the inertial queue is empty, one pass has a result,
makes no tracker call, leaves both queues unchanged and sleeps for 1 ms exactly once. -/
theorem C9_idle_pass_sleeps_once (e : Env R F D M) (s : State R F D M)
    (h : s.img0Buf = [] ∨ s.imuBuf = []) :
    ∃ s2, SyncWithImu e s = some s2 ∧
      s2.calls = s.calls ∧
      s2.img0Buf = s.img0Buf ∧
      s2.imuBuf = s.imuBuf ∧
      s2.sleeps = s.sleeps ++ [1] :=
  ⟨_, SyncWithImu_idle e s h, rfl, rfl, rfl, rfl⟩

/-- C3. Samples stamped 1.0, 1.1, 1.5, 1.9 and then 2.0 are pushed in that order and two frames,
stamped 1.2 and 1.8, are handed to the tracker.  Both calls carry the timestamp 1, the first
batch holds all four samples of that second and the second batch is empty, whereas the pushed
samples stamped at or before 1.8 are only the first three. -/
theorem C3_sub_second_batches_include_later_sample :
    (pushed subSecondEvents).Pairwise
      (fun a b => a.header.stamp.nanoseconds ≤ b.header.stamp.nanoseconds) ∧
    (imageAt 1 200000000 12).header.stamp.nanoseconds
      < (imageAt 1 800000000 18).header.stamp.nanoseconds ∧
    run env0 State.init subSecondEvents = some
      { img0Buf := []
        imuBuf := [imuAt 2 0 5]
        calls :=
          [{ im := 12, tIm := 1,
             vImuMeas := [toPoint id (imuAt 1 0 1), toPoint id (imuAt 1 100000000 2),
               toPoint id (imuAt 1 500000000 3), toPoint id (imuAt 1 900000000 4)] },
           { im := 18, tIm := 1, vImuMeas := [] }]
        sleeps := [1, 1] } ∧
    (pushed subSecondEvents).filter
        (fun m => decide (m.header.stamp.nanoseconds
          ≤ (imageAt 1 800000000 18).header.stamp.nanoseconds))
      = [imuAt 1 0 1, imuAt 1 100000000 2, imuAt 1 500000000 3] := by
  decide

/-- C6. A frame stamped 2.0 is held and the only queued sample is stamped 2.1, later than the
frame: the pass still drains that sample into the batch and empties the inertial queue.
And when the picture of a covered frame cannot be converted, the pass has no result: it
stops in `GetImage`, before the frame is popped and before any tracker call. -/
theorem C6_boundary_sample_drained_unreadable_frame_stops :
    (imageAt 2 0 20).header.stamp.nanoseconds < (imuAt 2 100000000 1).header.stamp.nanoseconds ∧
    SyncWithImu env0 boundaryState = some
      { img0Buf := []
        imuBuf := []
        calls := [{ im := 20, tIm := 2, vImuMeas := [toPoint id (imuAt 2 100000000 1)] }]
        sleeps := [1] } ∧
    GetImage env0 (imageAt 2 0 0) = none ∧
    SyncWithImu env0 unreadableState = none := by
  decide

/-- C7. On the scenario of the specification the pass hands the tracker the frame stamped 2.0
with timestamp 2, but the batch holds all six samples, the one stamped 2.1 included, and the
inertial queue is left empty: `header.stamp.sec` of the sample stamped 2.1 is 2. -/
theorem C7_scenario_batch_includes_later_sample :
    run env0 State.init scenarioEvents = some
      { img0Buf := []
        imuBuf := []
        calls :=
          [{ im := 20, tIm := 2,
             vImuMeas := [toPoint id (imuAt 0 900000000 1), toPoint id (imuAt 1 0 2),
               toPoint id (imuAt 1 100000000 3), toPoint id (imuAt 1 900000000 4),
               toPoint id (imuAt 2 0 5), toPoint id (imuAt 2 100000000 6)] }]
        sleeps := [1] } ∧
    (imageAt 2 0 20).header.stamp.nanoseconds
      < (imuAt 2 100000000 6).header.stamp.nanoseconds := by
  decide

/-- C8. With a frame stamped 5 held and the newest sample stamped 4, one pass makes no tracker
call and leaves both queues unchanged, but it records no sleep: the state after the pass is
the state before it, whereas the same pass on an empty inertial queue records one sleep. -/
theorem C8_held_back_pass_does_not_sleep :
    SyncWithImu env0 heldState = some heldState ∧
    heldState.sleeps = [] ∧
    SyncWithImu env0 { heldState with imuBuf := [] }
      = some { heldState with imuBuf := [], sleeps := [1] } := by
  decide

/-- C10. When `GrabImage` replaces the held frame (stamp 1, picture 10) by a frame with stamp 2
and picture 20 between the unlocked read of the stamp and the locked take, the pass calls the
tracker with the picture of the new frame and the timestamp of the old one. -/
theorem C10_frame_replaced_between_read_and_take :
    syncInterleaved env0 [imageAt 2 0 20] raceState =
      some { img0Buf := [], imuBuf := [],
             calls := [{ im := 20,
                         tIm := (imageAt 1 0 10).header.stamp.sec,
                         vImuMeas := [toPoint id (imuAt 1 0 1)] }],
             sleeps := [1] } ∧
    GetImage env0 (imageAt 2 0 20) = some 20 ∧
    GetImage env0 (imageAt 1 0 10) = some 10 ∧
    (imageAt 2 0 20).header.stamp.sec ≠ (imageAt 1 0 10).header.stamp.sec := by
  decide

/-! ## The theorems at concrete inputs -/

/-- With a frame stamped 5 and samples stamped 3 and 4, two passes around a push of a sample
stamped 4.5 neither call the tracker nor remove the frame. -/
theorem C2_tracker_call_is_covered_witness :
    heldState.img0Buf = [imageAt 5 0 50] ∧
    ∃ s2, run env0 heldState [Event.sync, Event.grabImu (imuAt 4 500000000 3), Event.sync]
        = some s2 ∧
      s2.calls = heldState.calls ∧ s2.img0Buf = [imageAt 5 0 50] :=
  ⟨rfl, (C2_tracker_call_is_covered env0).2.2 heldState (imageAt 5 0 50)
    [Event.sync, Event.grabImu (imuAt 4 500000000 3), Event.sync] rfl (by decide)
    (by
      intro ev hev
      simp only [List.mem_cons, List.mem_singleton, List.not_mem_nil, or_false] at hev
      rcases hev with rfl | rfl | rfl
      · exact Or.inl rfl
      · exact Or.inr ⟨_, rfl, by decide⟩
      · exact Or.inl rfl)⟩

/-- Pushing frames stamped 1 and then 2 into the empty queue leaves only the frame stamped 2. -/
theorem C4_frame_queue_single_slot_witness :
    (State.init : State Int Int Nat Nat).img0Buf.length ≤ 1 ∧
    run env0 State.init [Event.grabImage (imageAt 1 0 10), Event.grabImage (imageAt 2 0 20)]
      = some { (State.init : State Int Int Nat Nat) with img0Buf := [imageAt 2 0 20] } :=
  ⟨by decide, (C4_frame_queue_single_slot env0).1 State.init [imageAt 1 0 10, imageAt 2 0 20]
    (by simp) (by decide)⟩

/-- After `twoFrameEvents` the one batch and the inertial queue make up the five pushed samples. -/
theorem C5_batches_and_queue_are_push_history_witness :
    run env0 State.init twoFrameEvents = some twoFrameState ∧
    (twoFrameState.calls.map (fun c => c.vImuMeas)).flatten
        ++ twoFrameState.imuBuf.map (toPoint env0.toFloat)
      = (pushed twoFrameEvents).map (toPoint env0.toFloat) :=
  ⟨by decide,
    (C5_batches_and_queue_are_push_history env0 twoFrameEvents twoFrameState (by decide)).2⟩

/-- A pass on the initial state, where both queues are empty, only sleeps once. -/
theorem C9_idle_pass_sleeps_once_witness :
    ((State.init : State Int Int Nat Nat).img0Buf = [] ∨
      (State.init : State Int Int Nat Nat).imuBuf = []) ∧
    ∃ s2, SyncWithImu env0 State.init = some s2 ∧
      s2.calls = (State.init : State Int Int Nat Nat).calls ∧
      s2.img0Buf = (State.init : State Int Int Nat Nat).img0Buf ∧
      s2.imuBuf = (State.init : State Int Int Nat Nat).imuBuf ∧
      s2.sleeps = (State.init : State Int Int Nat Nat).sleeps ++ [1] :=
  ⟨Or.inl rfl, C9_idle_pass_sleeps_once env0 State.init (Or.inl rfl)⟩

end MonoInertial
